import Mathlib

/-!
Verification of the cass conversation-search engine against its
natural-language specification.  The definitions below are a shallow
embedding of the Rust sources: JSON values are represented by an explicit
inductive type (the serde_json text parser is an external trusted library,
so inputs are given as already-parsed values), machine integers are `Int`/`Nat`, paths
are `String`s, and fallible operations return `Option`/`Except`.
-/

set_option linter.unusedVariables false

/-- Tagged-union JSON value, mirroring `serde_json::Value`.  Numbers are
restricted to integers, which is all the modelled code paths inspect via
`as_i64`. -/
inductive Json where
  | null : Json
  | bool (b : Bool) : Json
  | num (n : Int) : Json
  | str (s : String) : Json
  | arr (xs : List Json) : Json
  | obj (fields : List (String × Json)) : Json

/-- `Value::get(key)` on an object: first binding wins, like serde's map. -/
def Json.get? (j : Json) (key : String) : Option Json :=
  match j with
  | .obj fields => fields.lookup key
  | _ => none

/-- `Value::as_str()`. -/
def Json.asStr? (j : Json) : Option String :=
  match j with
  | .str s => some s
  | _ => none

/-- `Value::as_i64()`. -/
def Json.asInt? (j : Json) : Option Int :=
  match j with
  | .num n => some n
  | _ => none

/-- `Value::as_array()`. -/
def Json.asArr? (j : Json) : Option (List Json) :=
  match j with
  | .arr xs => some xs
  | _ => none

/-- `NormalizedMessage` from the connector framework.  `snippets` is omitted:
every connector modelled here always emits an empty snippet list. -/
structure NormalizedMessage where
  idx : Int
  role : String
  author : Option String
  created_at : Option Int
  content : String
  extra : Json

/-- `NormalizedConversation` from the connector framework.  Filesystem paths
are rendered as `String`s. -/
structure NormalizedConversation where
  agent_slug : String
  external_id : Option String
  title : Option String
  workspace : Option String
  source_path : String
  started_at : Option Int
  ended_at : Option Int
  metadata : Json
  messages : List NormalizedMessage

/-! String primitives.  The Rust code uses `str::trim`, `starts_with`,
`ends_with`, `to_lowercase`, `lines` and `split_whitespace`; they are
rendered here as structurally recursive operations on the character list
(so that concrete runs reduce inside the kernel).  The inputs under
verification are ASCII, where these agree with the Unicode-aware Rust
originals. -/

/-- Split a character list at every occurrence of `c` (separators are
consumed; `n` separators yield `n + 1` segments, like `str::split`). -/
def splitChar (c : Char) : List Char → List (List Char)
  | [] => [[]]
  | x :: xs =>
    if x = c then [] :: splitChar c xs
    else
      match splitChar c xs with
      | h :: t => (x :: h) :: t
      | [] => [[x]]

/-- Split a character list at every character satisfying `p`. -/
def splitPred (p : Char → Bool) : List Char → List (List Char)
  | [] => [[]]
  | x :: xs =>
    if p x then [] :: splitPred p xs
    else
      match splitPred p xs with
      | h :: t => (x :: h) :: t
      | [] => [[x]]

/-- Rust `str::trim`. -/
def strTrim (s : String) : String :=
  String.mk ((((s.toList.dropWhile Char.isWhitespace).reverse).dropWhile
    Char.isWhitespace).reverse)

/-- Rust `str::starts_with(pat)`. -/
def strStartsWith (s pat : String) : Bool :=
  pat.toList.isPrefixOf s.toList

/-- Rust `str::ends_with(pat)`. -/
def strEndsWith (s pat : String) : Bool :=
  pat.toList.reverse.isPrefixOf s.toList.reverse

/-- Rust `str::to_lowercase` (ASCII part). -/
def strToLower (s : String) : String :=
  String.mk (s.toList.map Char.toLower)

/-- Rust's `str::lines()`: split on newlines, dropping one trailing empty
segment and any carriage return left at the end of a segment. -/
def rustLines (s : String) : List String :=
  let parts := (splitChar '\n' s.toList).map String.mk
  let parts := if parts.getLast? = some "" then parts.dropLast else parts
  parts.map (fun l => if strEndsWith l "\r" then String.mk l.toList.dropLast else l)

/-- `s.chars().take(n).collect::<String>()`. -/
def charsTake (s : String) (n : Nat) : String :=
  String.mk (s.toList.take n)

/-- `line.trim_start_matches("> ")` on the character list: strip every
leading repetition of the two-character pattern. -/
def stripLeadingGtSpace : List Char → List Char
  | '>' :: ' ' :: rest => stripLeadingGtSpace rest
  | cs => cs

/-- `line.trim_start_matches("> ")` as a `String` operation. -/
def trimStartMatchesGtSpace (s : String) : String :=
  String.mk (stripLeadingGtSpace s.toList)

/-- Modelled from the spec: `parse_timestamp(value)` of the connector
framework (`src/connectors/mod.rs` is not part of the provided sources).
The spec says it accepts epoch seconds, epoch milliseconds, ISO-8601 and
RFC-3339 and returns milliseconds.  The claims under verification only
exercise numeric timestamps, so string forms are modelled as unparsed;
a numeric value at or above 10^11 is taken to be milliseconds already,
anything smaller is taken to be seconds and scaled. -/
def parse_timestamp (v : Json) : Option Int :=
  match v with
  | .num n => if n.natAbs ≥ 100000000000 then some n else some (n * 1000)
  | _ => none

/-- Modelled from the spec: one fragment inside a structured content array,
collapsed to its human-readable text. -/
def flattenFragment (v : Json) : String :=
  match v with
  | .str s => s
  | .obj _ => (((v.get? "text").bind Json.asStr?).getD "")
  | _ => ""

/-- Modelled from the spec: `flatten_content(value)` of the connector
framework (`src/connectors/mod.rs` is not part of the provided sources).
The spec says it collapses arbitrary structured content (arrays of typed
fragments, nested text blocks) into a single plain-text string preserving
human-readable ordering. -/
def flatten_content (v : Json) : String :=
  match v with
  | .str s => s
  | .arr xs =>
    match xs.map flattenFragment with
    | [] => ""
    | w :: rest => rest.foldl (fun acc x => acc ++ "\n" ++ x) w
  | .obj _ => flattenFragment v
  | _ => ""

/-! ## Cline connector (`src/connectors/cline.rs`)

`ClineConnector::scan` walks task directories; for each task it reads the
files `ui_messages.json` and `api_conversation_history.json` that exist,
parses each (`unwrap_or(Value::Null)` on parse failure) and, when the value
is an array, pushes one message per element with `idx` taken from the
per-file `enumerate()` counter. -/

/-- Messages produced from one cline source file value (the body of the
`if let Some(arr) = val.as_array()` block of `ClineConnector::scan`). -/
def clineFileMessages (val : Json) : List NormalizedMessage :=
  match val.asArr? with
  | none => []
  | some arr =>
    arr.enum.map (fun p =>
      { idx := (p.1 : Int)
        role := ((Option.or (p.2.get? "role") (p.2.get? "type")).bind Json.asStr?).getD "agent"
        author := none
        created_at := (Option.or (p.2.get? "timestamp") (p.2.get? "created_at")).bind Json.asInt?
        content := ((Option.or (p.2.get? "content") (p.2.get? "text")).bind Json.asStr?).getD ""
        extra := p.2 })

/-- Concatenated messages of one cline task: the loop
`for file in [ui_messages_path, api_messages_path]` appends the per-file
message lists into one vector.  `files` holds the parsed values of the
files that exist, in that order. -/
def clineTaskMessages (files : List Json) : List NormalizedMessage :=
  (files.map clineFileMessages).flatten

/-- The conversation `ClineConnector::scan` emits for one task directory:
skipped when no messages were collected, otherwise pushed with the
accumulated message vector. -/
def clineTaskConversation (task_id : Option String) (source_path : String)
    (title : Option String) (files : List Json) : Option NormalizedConversation :=
  let messages := clineTaskMessages files
  if messages.isEmpty then none
  else some
    { agent_slug := "cline"
      external_id := task_id
      title := title
      workspace := none
      source_path := source_path
      started_at := none
      ended_at := none
      metadata := Json.obj [("source", Json.str "cline")]
      messages := messages }

/-! ## Codex connector (`src/connectors/codex.rs`)

`CodexConnector::scan` parses each rollout file.  For the modern `.jsonl`
envelope format every line is parsed to a JSON value (blank and malformed
lines are skipped, so the input here is the list of parsed line values)
and folded through the state below. -/

structure CodexScanState where
  messages : List NormalizedMessage
  started_at : Option Int
  ended_at : Option Int
  session_cwd : Option String

/-- Processing of one envelope line inside `CodexConnector::scan`. -/
def codexProcessLine (st : CodexScanState) (val : Json) : CodexScanState :=
  let entry_type := ((val.get? "type").bind Json.asStr?).getD ""
  let created := (val.get? "timestamp").bind parse_timestamp
  if entry_type = "session_meta" then
    let st :=
      match val.get? "payload" with
      | some payload => { st with session_cwd := (payload.get? "cwd").bind Json.asStr? }
      | none => st
    { st with started_at := Option.or st.started_at created }
  else if entry_type = "response_item" then
    match val.get? "payload" with
    | some payload =>
      let role := ((payload.get? "role").bind Json.asStr?).getD "agent"
      let content_str := ((payload.get? "content").map flatten_content).getD ""
      if strTrim content_str = "" then st
      else
        { st with
          started_at := Option.or st.started_at created
          ended_at := Option.or created st.ended_at
          messages := st.messages ++
            [{ idx := 0, role := role, author := none, created_at := created
               content := content_str, extra := val }] }
    | none => st
  else if entry_type = "event_msg" then
    match val.get? "payload" with
    | some payload =>
      let event_type := (payload.get? "type").bind Json.asStr?
      if event_type = some "user_message" then
        let text := ((payload.get? "message").bind Json.asStr?).getD ""
        if text = "" then st
        else
          { st with
            ended_at := Option.or created st.ended_at
            messages := st.messages ++
              [{ idx := 0, role := "user", author := none, created_at := created
                 content := text, extra := val }] }
      else if event_type = some "agent_reasoning" then
        let text := ((payload.get? "text").bind Json.asStr?).getD ""
        if text = "" then st
        else
          { st with
            ended_at := Option.or created st.ended_at
            messages := st.messages ++
              [{ idx := 0, role := "assistant", author := some "reasoning", created_at := created
                 content := text, extra := val }] }
      else st
    | none => st
  else st

/-- `m.content.lines().next()`. -/
def firstContentLine (s : String) : Option String :=
  (rustLines s).head?

/-- Title derivation at the end of `CodexConnector::scan`: first user
message's first line (falling back to its whole content), else the first
message's first line, capped at 100 characters. -/
def codexTitle (messages : List NormalizedMessage) : Option String :=
  Option.or
    ((messages.find? (fun m => m.role = "user")).map
      (fun m => charsTake ((firstContentLine m.content).getD m.content) 100))
    ((messages.head?.bind (fun m => firstContentLine m.content)).map
      (fun s => charsTake s 100))

/-- The conversation `CodexConnector::scan` emits for one `.jsonl` rollout
file whose parsed lines are `lines`: the fold above, dense re-indexing of
the surviving messages, and the skip of message-less files. -/
def codexParseJsonl (external_id : Option String) (source_path : String)
    (lines : List Json) : Option NormalizedConversation :=
  let st := lines.foldl codexProcessLine
    { messages := [], started_at := none, ended_at := none, session_cwd := none }
  let messages := st.messages.enum.map (fun p => { p.2 with idx := (p.1 : Int) })
  if messages.isEmpty then none
  else some
    { agent_slug := "codex"
      external_id := external_id
      title := codexTitle messages
      workspace := st.session_cwd
      source_path := source_path
      started_at := st.started_at
      ended_at := st.ended_at
      metadata := Json.obj [("source", Json.str "rollout")]
      messages := messages }

/-! ## Aider connector (`src/connectors/aider.rs`)

`AiderConnector::parse_chat_history` folds the lines of the markdown
transcript through the accumulator below and flushes the trailing buffer
at the end. -/

structure AiderAcc where
  messages : List NormalizedMessage
  current_role : String
  current_content : String
  msg_idx : Int

/-- One iteration of the line loop of `parse_chat_history`. -/
def aiderStep (acc : AiderAcc) (line : String) : AiderAcc :=
  if strStartsWith (strTrim line) "> " then
    let acc :=
      if acc.current_role ≠ "user" ∧ strTrim acc.current_content ≠ "" then
        { messages := acc.messages ++
            [{ idx := acc.msg_idx, role := acc.current_role, author := some acc.current_role
               created_at := none, content := strTrim acc.current_content, extra := Json.obj [] }]
          current_role := acc.current_role
          current_content := ""
          msg_idx := acc.msg_idx + 1 }
      else acc
    { acc with
      current_role := "user"
      current_content := acc.current_content ++ strTrim (trimStartMatchesGtSpace line) ++ "\n" }
  else
    let acc :=
      if acc.current_role = "user" ∧ strTrim line ≠ "" ∧ ¬ strStartsWith line ">" then
        let acc :=
          if strTrim acc.current_content ≠ "" then
            { messages := acc.messages ++
                [{ idx := acc.msg_idx, role := "user", author := some "user"
                   created_at := none, content := strTrim acc.current_content, extra := Json.obj [] }]
              current_role := acc.current_role
              current_content := ""
              msg_idx := acc.msg_idx + 1 }
          else acc
        { acc with current_role := "assistant" }
      else acc
    { acc with current_content := acc.current_content ++ line ++ "\n" }

/-- The message list `parse_chat_history` builds from the file content. -/
def aiderParseMessages (content : String) : List NormalizedMessage :=
  let acc := (rustLines content).foldl aiderStep
    { messages := [], current_role := "system", current_content := "", msg_idx := 0 }
  if strTrim acc.current_content ≠ "" then
    acc.messages ++
      [{ idx := acc.msg_idx, role := acc.current_role, author := some acc.current_role
         created_at := none, content := strTrim acc.current_content, extra := Json.obj [] }]
  else acc.messages

/-- `AiderConnector::parse_chat_history`: always yields one conversation for
the file, with the file's mtime used for both time bounds. -/
def aiderParseChatHistory (path_name path_display workspace source_path : String)
    (mtime : Int) (content : String) : NormalizedConversation :=
  { agent_slug := "aider"
    external_id := some path_name
    title := some ("Aider Chat: " ++ path_display)
    workspace := some workspace
    source_path := source_path
    started_at := some mtime
    ended_at := some mtime
    metadata := Json.obj []
    messages := aiderParseMessages content }

/-! ## Search client (`src/search/query.rs`)

A `SearchHit` is modelled with the fields of the Rust struct; the `f32`
relevance score is abstracted to `Int`, preserving the order comparisons
the code performs on it. -/

structure SearchHit where
  title : String
  snippet : String
  content : String
  score : Int
  source_path : String
  agent : String
  workspace : String
  created_at : Option Int
  line_number : Option Nat
deriving DecidableEq

/-- Rust `str::split_whitespace()`: whitespace-separated words, empties
skipped (ASCII whitespace; the modelled inputs contain no exotic
whitespace). -/
def splitWhitespaceWords (s : String) : List String :=
  ((splitPred Char.isWhitespace s.toList).map String.mk).filter (fun w => w ≠ "")

/-- The normalized-whitespace dedup key computed inside `deduplicate_hits`:
`content.split_whitespace().collect::<Vec<_>>().join(" ")`. -/
def normWsKey (s : String) : String :=
  match splitWhitespaceWords s with
  | [] => ""
  | w :: rest => rest.foldl (fun acc x => acc ++ " " ++ x) w

/-- `is_tool_invocation_noise` from `src/search/query.rs`.  Rust `len()` is
the UTF-8 byte length; `to_lowercase` agrees with `String.toLower` on the
ASCII contents involved here. -/
def is_tool_invocation_noise (content : String) : Bool :=
  let trimmed := strTrim content
  (strStartsWith trimmed "[Tool:" && (trimmed.utf8ByteSize < 100 || strEndsWith trimmed "]"))
  || (trimmed.utf8ByteSize < 20 &&
      (let lower := strToLower trimmed
       strStartsWith lower "[tool" || strStartsWith lower "tool:"))

/-- One step of `deduplicate_hits`: the `seen` hash map sends each
normalized key to the index of its unique representative in `deduped`, so
looking a key up is finding the first (and only) element of the
accumulator with that key; a lower-scored representative is replaced in
place, otherwise the new hit is dropped; an unseen key is appended. -/
def insertHit (acc : List SearchHit) (h : SearchHit) : List SearchHit :=
  match acc with
  | [] => [h]
  | e :: es =>
    if normWsKey e.content = normWsKey h.content then
      if e.score < h.score then h :: es else e :: es
    else e :: insertHit es h

/-- The fold inside `deduplicate_hits` over the incoming hits. -/
def dedupFold : List SearchHit → List SearchHit → List SearchHit
  | [], acc => acc
  | h :: rest, acc =>
    if is_tool_invocation_noise h.content then dedupFold rest acc
    else dedupFold rest (insertHit acc h)

/-- `deduplicate_hits` from `src/search/query.rs`. -/
def deduplicate_hits (hits : List SearchHit) : List SearchHit :=
  dedupFold hits []

/-- A search client over a fixed query and filter set.  Each present
backend is abstracted to the full ranked hit sequence it would deliver for
that query (`search_sqlite` without LIMIT/OFFSET, respectively the
tantivy searcher's full ranked result). -/
structure SearchClient where
  sqlite : Option (List SearchHit)
  tantivy : Option (List SearchHit)

/-- `LIMIT ?/OFFSET ?` of `search_sqlite`, and equally
`TopDocs::with_limit(limit).and_offset(offset)` of `search_tantivy`,
applied to the backend's ranked sequence. -/
def backendFetch (store : List SearchHit) (limit offset : Nat) : List SearchHit :=
  (store.drop offset).take limit

/-- The tantivy fallback arm of `SearchClient::search`. -/
def searchTantivyArm (c : SearchClient) (fetch_limit limit offset : Nat) : List SearchHit :=
  match c.tantivy with
  | some store => (deduplicate_hits (backendFetch store fetch_limit offset)).take limit
  | none => []

/-- `SearchClient::search` for a non-empty sanitized query: overfetch
`3 × limit` from SQLite FTS when present, fall back to tantivy when SQLite
is absent or returned nothing, deduplicate, truncate to `limit`. -/
def SearchClient.search (c : SearchClient) (limit offset : Nat) : List SearchHit :=
  let fetch_limit := limit * 3
  match c.sqlite with
  | some store =>
    let hits := backendFetch store fetch_limit offset
    if hits.isEmpty then searchTantivyArm c fetch_limit limit offset
    else (deduplicate_hits hits).take limit
  | none => searchTantivyArm c fetch_limit limit offset

/-! ## `SearchClient::open` (`src/search/query.rs`)

The filesystem facts `open` depends on are abstracted to three booleans.
`rusqlite::Connection::open` uses SQLite's default
`READWRITE | CREATE` flags: it succeeds when the database file exists
or when it can be created in its directory. -/

structure SearchFsEnv where
  indexOpens : Bool
  dbFileExists : Bool
  dbCreatable : Bool

/-- `Connection::open(p).ok().is_some()` under the environment above. -/
def connectionOpenOk (env : SearchFsEnv) : Bool :=
  env.dbFileExists || env.dbCreatable

/-- Handles held by an opened client: tantivy reader and SQLite
connection. -/
structure SearchClientHandles where
  reader : Bool
  sqlite : Bool
deriving DecidableEq

/-- `SearchClient::open(index_path, db_path)`: `db_path_provided` states
whether `db_path` was `Some`.  Returns `none` exactly when both backend
handles failed to open. -/
def SearchClient.open (env : SearchFsEnv) (db_path_provided : Bool) :
    Option SearchClientHandles :=
  let tantivy := env.indexOpens
  let sqlite := db_path_provided && connectionOpenOk env
  if tantivy = false ∧ sqlite = false then none
  else some { reader := tantivy, sqlite := sqlite }

/-- The spec's wording of backend presence for `open`: a readable inverted
index at `index_path`, or an existing relational store at `db_path`.
Stated for comparison with the behaviour of `SearchClient.open`. -/
def specBackendPresent (env : SearchFsEnv) (db_path_provided : Bool) : Bool :=
  env.indexOpens || (db_path_provided && env.dbFileExists)

/-! ## Remote sync engine (`src/sources/sync.rs`) -/

/-- `path_to_safe_dirname`: strip every leading `~`, then every leading
`/`, replace each `/`, `\` and space with `_`, and fall back to `"root"`
when nothing is left. -/
def path_to_safe_dirname (path : String) : String :=
  let cleaned := String.mk
    (((path.toList.dropWhile (fun c => c = '~')).dropWhile (fun c => c = '/')).map
      (fun c => if c = '/' ∨ c = '\\' ∨ c = ' ' then '_' else c))
  if cleaned = "" then "root" else cleaned

/-! ## Model downloader (`src/search/model_download.rs`)

`ModelDownloader::download` is embedded as a state-passing run over an
environment that abstracts the network and filesystem effects of
`download_file`.  The shared `AtomicU64` byte counter, the shared
`AtomicBool` cancellation flag and the sleeps become explicit state and
trace events.  External `cancel()` calls are modelled by
`cancelFiredBefore k`: whether a cancellation request arrives between the
`k-1`-st and the `k`-th flag read performed after `download` starts; the
flag is monotone once set, exactly like the `AtomicBool`. -/

inductive DlErr where
  | network (msg : String)
  | ioErr
  | verification (file expected actual : String)
  | cancelled
  | timeout
  | http (status : Nat)
deriving DecidableEq

inductive DlEvent where
  | storeFlag (b : Bool)
  | checkCancel (value : Bool)
  | storeCounter (v : Int)
  | sleep (secs : Nat)
  | attemptFile (fileIdx attempt : Nat)
deriving DecidableEq

structure DlState where
  flag : Bool
  bytes : Int
  tick : Nat
  events : List DlEvent
deriving DecidableEq

structure DlEnv where
  cancelFiredBefore : Nat → Bool
  attemptResult : Nat → Nat → Option DlErr
  attemptDelta : Nat → Nat → Int
  hashOf : Nat → String

/-- One `self.is_cancelled()` read: the flag absorbs any cancellation
request that arrived since the previous read, and the observed value is
recorded in the trace. -/
def doCheck (env : DlEnv) (st : DlState) : Bool × DlState :=
  let v := st.flag || env.cancelFiredBefore st.tick
  (v, { st with flag := v, tick := st.tick + 1, events := st.events ++ [.checkCancel v] })

structure ModelFile where
  name : String
  sha256 : String
  size : Nat

structure ModelManifest where
  id : String
  repo : String
  revision : String
  files : List ModelFile
  license : String

/-- The `for attempt in 0..self.max_retries` loop of
`ModelDownloader::download`, one file.  `b` is `bytes_before_file`.  An
attempt's network/filesystem behaviour is the environment's
`attemptResult`/`attemptDelta` at that file and attempt (a `none` result
is success); the single modelled in-flight cancellation check stands for
the per-chunk `is_cancelled` checks of `download_file`, whose `Cancelled`
return feeds `last_error` and lets the loop continue, exactly as in the
source. -/
def retryGo (env : DlEnv) (f : Nat) (b : Int) :
    List Nat → Option DlErr → DlState → Except DlErr Unit × DlState
  | [], lastErr, st =>
    match lastErr with
    | some e => (.error e, st)
    | none => (.ok (), st)
  | attempt :: rest, lastErr, st =>
    let (c, st) := doCheck env st
    if c then (.error .cancelled, st)
    else
      let st := if 0 < attempt then
          { st with bytes := b, events := st.events ++ [.storeCounter b] } else st
      let st := if 0 < attempt then
          { st with events := st.events ++ [.sleep (5 * 2 ^ (attempt - 1))] } else st
      let (c2, st) := doCheck env st
      if c2 then retryGo env f b rest (some .cancelled) st
      else
        let st := { st with bytes := st.bytes + env.attemptDelta f attempt,
                            events := st.events ++ [.attemptFile f attempt] }
        match env.attemptResult f attempt with
        | none => (.ok (), st)
        | some e => retryGo env f b rest (some e) st

/-- The retry loop ranging over attempts `0, 1, …, maxRetries - 1`. -/
def retryLoop (env : DlEnv) (maxRetries : Nat) (f : Nat) (b : Int) (st : DlState) :
    Except DlErr Unit × DlState :=
  retryGo env f b (List.range maxRetries) none st

/-- One iteration of the file loop of `ModelDownloader::download`:
cancellation check, `bytes_before_file` snapshot, retry loop, post-loop
cancellation check, SHA-256 comparison against the manifest. -/
def fileStep (env : DlEnv) (maxRetries : Nat) (fIdx : Nat) (file : ModelFile)
    (st : DlState) : Except DlErr Unit × DlState :=
  let (c, st) := doCheck env st
  if c then (.error .cancelled, st)
  else
    let b := st.bytes
    match retryLoop env maxRetries fIdx b st with
    | (.error e, st) => (.error e, st)
    | (.ok _, st) =>
      let (c2, st) := doCheck env st
      if c2 then (.error .cancelled, st)
      else if env.hashOf fIdx = file.sha256 then (.ok (), st)
      else (.error (.verification file.name file.sha256 (env.hashOf fIdx)), st)

/-- The file loop over the enumerated manifest files. -/
def filesGo (env : DlEnv) (maxRetries : Nat) :
    List (Nat × ModelFile) → DlState → Except DlErr Unit × DlState
  | [], st => (.ok (), st)
  | (i, f) :: rest, st =>
    match fileStep env maxRetries i f st with
    | (.ok _, st) => filesGo env maxRetries rest st
    | (.error e, st) => (.error e, st)

/-- The fields of `ModelDownloader` the embedded behaviour depends on:
the shared cancellation flag's value when `download` is entered, and
`max_retries`. -/
structure ModelDownloader where
  cancelled : Bool
  maxRetries : Nat

/-- `ModelDownloader::new`: flag initially clear, `max_retries: 3`. -/
def ModelDownloader.new : ModelDownloader :=
  { cancelled := false, maxRetries := 3 }

/-- `ModelDownloader::download`: its first action stores `false` into the
shared cancellation flag, then the files are downloaded in manifest
order.  The returned state carries the final byte counter and the event
trace. -/
def ModelDownloader.download (d : ModelDownloader) (manifest : ModelManifest)
    (env : DlEnv) : Except DlErr Unit × DlState :=
  let st0 : DlState := { flag := d.cancelled, bytes := 0, tick := 0, events := [] }
  let st1 := { st0 with flag := false, events := st0.events ++ [.storeFlag false] }
  filesGo env d.maxRetries manifest.files.enum st1

/-! ## Concrete inputs used by the claim theorems below -/

/-- Scenario 2, line 1: a `session_meta` envelope. -/
def codexLine1 : Json :=
  Json.obj [("type", Json.str "session_meta"), ("timestamp", Json.num 1700000000000),
            ("payload", Json.obj [("cwd", Json.str "/w")])]

/-- Scenario 2, line 2: a user `response_item` envelope. -/
def codexLine2 : Json :=
  Json.obj [("type", Json.str "response_item"), ("timestamp", Json.num 1700000001000),
            ("payload", Json.obj [("role", Json.str "user"), ("content", Json.str "hi")])]

/-- Scenario 2, line 3: an `agent_reasoning` event envelope. -/
def codexLine3 : Json :=
  Json.obj [("type", Json.str "event_msg"), ("timestamp", Json.num 1700000002000),
            ("payload", Json.obj [("type", Json.str "agent_reasoning"), ("text", Json.str "thinking")])]

/-- Scenario 2, line 4: a `token_count` event envelope. -/
def codexLine4 : Json :=
  Json.obj [("type", Json.str "event_msg"), ("timestamp", Json.num 1700000003000),
            ("payload", Json.obj [("type", Json.str "token_count"), ("n", Json.num 42)])]

/-- The four parsed lines of scenario 2, in file order. -/
def codexScenario2 : List Json := [codexLine1, codexLine2, codexLine3, codexLine4]

/-- A cline `ui_messages.json` value holding one user message. -/
def clineUiFile : Json := Json.arr [Json.obj [("role", Json.str "user"), ("text", Json.str "a")]]

/-- A cline `api_conversation_history.json` value holding one assistant
message. -/
def clineApiFile : Json := Json.arr [Json.obj [("role", Json.str "assistant"), ("text", Json.str "b")]]

/-- A cline `ui_messages.json` value holding one record without `content`
or `text`. -/
def clineNoTextFile : Json := Json.arr [Json.obj [("role", Json.str "user")]]

/-- The scenario 1 markdown transcript. -/
def aiderScenario1 : String := "> hello\nworld reply\n> second\nsecond reply"

/-- A search hit with the given content and score; the remaining stored
fields are irrelevant to deduplication and truncation. -/
def mkHit (content : String) (score : Int) : SearchHit :=
  { title := "", snippet := "", content := content, score := score, source_path := ""
    agent := "", workspace := "", created_at := none, line_number := none }

/-- A ranked SQLite FTS result sequence, best-first under `ORDER BY score`
with bm25 values ascending; positions 0 and 3 share one
normalized-whitespace key, positions 1 and 2 share another. -/
def ascStore : List SearchHit :=
  [mkHit "k" (-20), mkHit "b" (-15), mkHit "b " (-14), mkHit "k " (-10)]

/-- A client whose relational backend delivers `ascStore`. -/
def ascClient : SearchClient := { sqlite := some ascStore, tantivy := none }

/-- An environment in which every attempt of every file fails with a
retryable network error and no cancellation is ever requested. -/
def allFailEnv : DlEnv :=
  { cancelFiredBefore := fun _ => false
    attemptResult := fun _ _ => some (.network "recv failure")
    attemptDelta := fun _ _ => 7
    hashOf := fun _ => "" }

/-- An environment in which every attempt succeeds at once and no
cancellation is ever requested. -/
def allOkEnv : DlEnv :=
  { cancelFiredBefore := fun _ => false
    attemptResult := fun _ _ => none
    attemptDelta := fun _ _ => 11
    hashOf := fun _ => "h" }

/-- A one-file manifest. -/
def oneFileManifest : ModelManifest :=
  { id := "m", repo := "r", revision := "v"
    files := [{ name := "model.onnx", sha256 := "h", size := 10 }], license := "l" }

/-- A ranked result sequence sorted best-first with non-increasing scores
(the tantivy convention). -/
def descStore : List SearchHit :=
  [mkHit "a" 5, mkHit "b" 3, mkHit "b " 3, mkHit "c" 1]

/-- A client whose relational backend delivers `descStore`. -/
def descClient : SearchClient := { sqlite := some descStore, tantivy := none }

/-! ## Claim theorems -/

/-- C1: the claim states that every conversation any connector emits has a
non-empty message list with `messages[i].idx = i` densely from zero, in
particular when messages are concatenated from several source files of one
artifact.  The cline connector violates this: with both `ui_messages.json`
and `api_conversation_history.json` present, each file restarts the
`enumerate()` counter, so the emitted conversation's indices are `[0, 0]`,
not `[0, 1]`. -/
theorem c1_cline_idx_not_dense :
    ((clineTaskConversation (some "task-1") "/home/u/cline/task-1" none
        [clineUiFile, clineApiFile]).map
      (fun c => (c.messages.map (fun m => m.idx),
                 c.messages.enum.all (fun p => p.2.idx == (p.1 : Int)))))
      = some ([0, 0], false) := by decide

/-- C2: the claim states that every message in every conversation any
connector emits has content that is non-empty after trimming.  The cline
connector violates this: a record with neither `content` nor `text`
becomes a message whose content is the empty string, and the conversation
is emitted with it. -/
theorem c2_cline_empty_content_emitted :
    ((clineTaskConversation (some "task-2") "/home/u/cline/task-2" none
        [clineNoTextFile]).map
      (fun c => c.messages.map (fun m => strTrim m.content)))
      = some [""] := by decide

/-- C3 counterexample: on the four scenario-2 lines the codex connector
reports `ended_at = 1700000002000` — the final `token_count` event is
ignored without touching the bounds — so the claimed
`ended_at = 1700000003000` is false. -/
theorem c3_counterexample_ended_at :
    ((codexParseJsonl (some "2025/11/20/rollout-1") "/h/.codex/sessions/2025/11/20/rollout-1.jsonl"
        codexScenario2).map (fun c => c.ended_at)) = some (some 1700000002000)
    ∧ ((some (some 1700000002000) : Option (Option Int)) ≠ some (some 1700000003000)) := by
  exact ⟨rfl, by decide⟩

/-- C3 (amended): parsing the four scenario-2 lines yields exactly one
conversation with workspace `/w`, the two messages `(user, "hi")` and
`(assistant, "thinking", author "reasoning")` at dense indices,
`started_at = 1700000000000` and `ended_at = 1700000002000`. -/
theorem c3_envelope_scenario :
    codexParseJsonl (some "2025/11/20/rollout-1") "/h/.codex/sessions/2025/11/20/rollout-1.jsonl"
        codexScenario2
      = some
        { agent_slug := "codex"
          external_id := some "2025/11/20/rollout-1"
          title := some "hi"
          workspace := some "/w"
          source_path := "/h/.codex/sessions/2025/11/20/rollout-1.jsonl"
          started_at := some 1700000000000
          ended_at := some 1700000002000
          metadata := Json.obj [("source", Json.str "rollout")]
          messages :=
            [{ idx := 0, role := "user", author := none
               created_at := some 1700000001000, content := "hi", extra := codexLine2 },
             { idx := 1, role := "assistant", author := some "reasoning"
               created_at := some 1700000002000, content := "thinking", extra := codexLine3 }] } := by
  rfl

/-- C4: on the scenario-1 transcript the markdown connector emits one
conversation with four messages, roles user/assistant alternating,
trimmed contents as written, and dense indices `0, 1, 2, 3`. -/
theorem c4_markdown_scenario :
    ((aiderParseChatHistory ".aider.chat.history.md" "/p/.aider.chat.history.md" "/p"
        "/p/.aider.chat.history.md" 1700000000000 aiderScenario1).messages.map
      (fun m => (m.idx, m.role, m.content)))
      = [(0, "user", "hello"), (1, "assistant", "world reply"),
         (2, "user", "second"), (3, "assistant", "second reply")] := by decide

/-- C7 counterexample: `path_to_safe_dirname "a!b" = "a!b"`, which does not
match `[A-Za-z0-9_.\x2d]+` — the function only replaces `/`, `\` and
space, every other character passes through. -/
theorem c7_counterexample_charclass :
    ((path_to_safe_dirname "a!b").toList.all
      (fun c => c.isAlphanum || c == '_' || c == '.' || c == '-')) = false := by decide

/-- C7 (amended): for every input, `path_to_safe_dirname` returns a
non-empty string containing no `/`, no `\` and no space; characters
outside the replaced set pass through unchanged, so the stronger
`[A-Za-z0-9_.\x2d]+` character-class bound of the original claim does not
hold. -/
theorem c7_safe_dirname_shape (path : String) :
    path_to_safe_dirname path ≠ "" ∧
    ∀ c ∈ (path_to_safe_dirname path).toList, c ≠ '/' ∧ c ≠ '\\' ∧ c ≠ ' ' := by
  simp only [path_to_safe_dirname]
  split
  · exact ⟨by decide, by decide⟩
  · rename_i hne
    refine ⟨hne, ?_⟩
    intro c hc
    replace hc : c ∈ ((path.toList.dropWhile (fun c => c = '~')).dropWhile
        (fun c => c = '/')).map (fun c => if c = '/' ∨ c = '\\' ∨ c = ' ' then '_' else c) := hc
    obtain ⟨x, hx, rfl⟩ := List.mem_map.mp hc
    by_cases hbc : x = '/' ∨ x = '\\' ∨ x = ' '
    · rw [if_pos hbc]
      exact ⟨by decide, by decide, by decide⟩
    · rw [if_neg hbc]
      push_neg at hbc
      exact hbc

/-- C7 witness: the amended theorem applied at `"~/a b/c"`, whose image
`"a_b_c"` contains the underscore. -/
theorem c7_safe_dirname_shape_witness :
    path_to_safe_dirname "~/a b/c" ≠ "" ∧ ('_' ≠ '/' ∧ '_' ≠ '\\' ∧ '_' ≠ ' ') :=
  ⟨(c7_safe_dirname_shape "~/a b/c").1,
   (c7_safe_dirname_shape "~/a b/c").2 '_' (by decide)⟩

/-- C8 counterexample: with an unreadable index, a supplied `db_path` and
no existing database file but a writable directory, `SearchClient::open`
returns a client (SQLite's `READWRITE | CREATE` open succeeds by creating
the file) although no backend was present in the spec's sense. -/
theorem c8_counterexample_creatable_db :
    (SearchClient.open
        { indexOpens := false, dbFileExists := false, dbCreatable := true } true).isSome = true
    ∧ specBackendPresent
        { indexOpens := false, dbFileExists := false, dbCreatable := true } true = false := by
  decide

/-- C8 (amended): `SearchClient::open` yields a client exactly when the
inverted index opens, or a `db_path` was supplied and the SQLite open
succeeds — the database file exists or can be created. -/
theorem c8_open_iff (env : SearchFsEnv) (p : Bool) :
    (SearchClient.open env p).isSome
      = (env.indexOpens || (p && (env.dbFileExists || env.dbCreatable))) := by
  rcases env with ⟨i, e, c⟩
  cases i <;> cases e <;> cases c <;> cases p <;> rfl

/-! Helper lemmas about `insertHit` and the `deduplicate_hits` fold. -/

theorem mem_insertHit {acc : List SearchHit} {h x : SearchHit}
    (hx : x ∈ insertHit acc h) : x ∈ acc ∨ x = h := by
  induction acc with
  | nil =>
    simp only [insertHit, List.mem_singleton] at hx
    exact Or.inr hx
  | cons e es ih =>
    simp only [insertHit] at hx
    split at hx
    · split at hx
      · rcases List.mem_cons.mp hx with rfl | hx'
        · exact Or.inr rfl
        · exact Or.inl (List.mem_cons_of_mem _ hx')
      · exact Or.inl hx
    · rcases List.mem_cons.mp hx with rfl | hx'
      · exact Or.inl (List.mem_cons_self _ _)
      · rcases ih hx' with h1 | h2
        · exact Or.inl (List.mem_cons_of_mem _ h1)
        · exact Or.inr h2

theorem pairwise_key_insertHit {acc : List SearchHit} {h : SearchHit}
    (hp : acc.Pairwise (fun a b => normWsKey a.content ≠ normWsKey b.content)) :
    (insertHit acc h).Pairwise (fun a b => normWsKey a.content ≠ normWsKey b.content) := by
  induction acc with
  | nil => simp [insertHit]
  | cons e es ih =>
    obtain ⟨he, hes⟩ := List.pairwise_cons.mp hp
    simp only [insertHit]
    split
    · rename_i hk
      split
      · exact List.pairwise_cons.mpr ⟨fun b hb => hk ▸ he b hb, hes⟩
      · exact List.pairwise_cons.mpr ⟨he, hes⟩
    · rename_i hk
      refine List.pairwise_cons.mpr ⟨?_, ih hes⟩
      intro b hb
      rcases mem_insertHit hb with hb' | rfl
      · exact he b hb'
      · exact hk

theorem insertHit_dominates_of_mem {acc : List SearchHit} {h a : SearchHit}
    (ha : a ∈ acc) :
    a ∈ insertHit acc h ∨
      (normWsKey a.content = normWsKey h.content ∧ a.score ≤ h.score ∧ h ∈ insertHit acc h) := by
  induction acc with
  | nil => cases ha
  | cons e es ih =>
    simp only [insertHit]
    rcases List.mem_cons.mp ha with rfl | ha'
    · split
      · rename_i hk
        split
        · rename_i hs
          exact Or.inr ⟨hk, le_of_lt hs, List.mem_cons_self _ _⟩
        · exact Or.inl (List.mem_cons_self _ _)
      · exact Or.inl (List.mem_cons_self _ _)
    · split
      · split
        · exact Or.inl (List.mem_cons_of_mem _ ha')
        · exact Or.inl (List.mem_cons_of_mem _ ha')
      · rcases ih ha' with h1 | ⟨hk2, hs2, hm2⟩
        · exact Or.inl (List.mem_cons_of_mem _ h1)
        · exact Or.inr ⟨hk2, hs2, List.mem_cons_of_mem _ hm2⟩

theorem insertHit_has_key (acc : List SearchHit) (h : SearchHit) :
    ∃ b, b ∈ insertHit acc h ∧ normWsKey b.content = normWsKey h.content ∧ h.score ≤ b.score := by
  induction acc with
  | nil => exact ⟨h, by simp [insertHit], rfl, le_refl _⟩
  | cons e es ih =>
    simp only [insertHit]
    split
    · rename_i hk
      split
      · exact ⟨h, List.mem_cons_self _ _, rfl, le_refl _⟩
      · rename_i hs
        exact ⟨e, List.mem_cons_self _ _, hk, not_lt.mp hs⟩
    · obtain ⟨b, hb, hbk, hbs⟩ := ih
      exact ⟨b, List.mem_cons_of_mem _ hb, hbk, hbs⟩

theorem eq_of_mem_pairwise_key {acc : List SearchHit} {a y : SearchHit}
    (hp : acc.Pairwise (fun u v => normWsKey u.content ≠ normWsKey v.content))
    (ha : a ∈ acc) (hy : y ∈ acc)
    (hk : normWsKey a.content = normWsKey y.content) : a = y := by
  induction acc with
  | nil => cases ha
  | cons e es ih =>
    obtain ⟨he, hes⟩ := List.pairwise_cons.mp hp
    rcases List.mem_cons.mp ha with rfl | ha' <;> rcases List.mem_cons.mp hy with rfl | hy'
    · rfl
    · exact absurd hk (he y hy')
    · exact absurd hk.symm (he a ha')
    · exact ih hes ha' hy'

theorem dedupFold_spec :
    ∀ (input acc : List SearchHit),
      acc.Pairwise (fun a b => normWsKey a.content ≠ normWsKey b.content) →
        (dedupFold input acc).Pairwise (fun a b => normWsKey a.content ≠ normWsKey b.content)
        ∧ (∀ y ∈ dedupFold input acc,
            y ∈ acc ∨ (y ∈ input ∧ is_tool_invocation_noise y.content = false))
        ∧ (∀ a ∈ acc, ∀ y ∈ dedupFold input acc,
            normWsKey a.content = normWsKey y.content → a.score ≤ y.score)
        ∧ (∀ x ∈ input, is_tool_invocation_noise x.content = false →
            ∀ y ∈ dedupFold input acc,
              normWsKey x.content = normWsKey y.content → x.score ≤ y.score) := by
  intro input
  induction input with
  | nil =>
    intro acc hp
    refine ⟨hp, fun y hy => Or.inl hy, fun a ha y hy hk => ?_, fun x hx => absurd hx (by simp)⟩
    have hay : a = y := eq_of_mem_pairwise_key hp ha hy hk
    exact le_of_eq (congrArg SearchHit.score hay)
  | cons h rest ih =>
    intro acc hp
    by_cases hn : is_tool_invocation_noise h.content
    · have heq : dedupFold (h :: rest) acc = dedupFold rest acc := by
        simp [dedupFold, hn]
      rw [heq]
      obtain ⟨c1, c2, c3, c4⟩ := ih acc hp
      refine ⟨c1, fun y hy => ?_, c3, fun x hx hxn y hy hk => ?_⟩
      · rcases c2 y hy with h1 | ⟨h2, h3⟩
        · exact Or.inl h1
        · exact Or.inr ⟨List.mem_cons_of_mem _ h2, h3⟩
      · rcases List.mem_cons.mp hx with rfl | hx'
        · rw [hn] at hxn
          cases hxn
        · exact c4 x hx' hxn y hy hk
    · have heq : dedupFold (h :: rest) acc = dedupFold rest (insertHit acc h) := by
        simp [dedupFold, hn]
      rw [heq]
      obtain ⟨c1, c2, c3, c4⟩ := ih (insertHit acc h) (pairwise_key_insertHit hp)
      refine ⟨c1, ?_, ?_, ?_⟩
      · intro y hy
        rcases c2 y hy with h1 | ⟨h2, h3⟩
        · rcases mem_insertHit h1 with h4 | rfl
          · exact Or.inl h4
          · exact Or.inr ⟨List.mem_cons_self _ _, Bool.eq_false_iff.mpr hn⟩
        · exact Or.inr ⟨List.mem_cons_of_mem _ h2, h3⟩
      · intro a ha y hy hk
        rcases insertHit_dominates_of_mem (h := h) ha with h1 | ⟨hk2, hs2, hm2⟩
        · exact c3 a h1 y hy hk
        · exact le_trans hs2 (c3 h hm2 y hy (hk2.symm.trans hk))
      · intro x hx hxn y hy hk
        rcases List.mem_cons.mp hx with rfl | hx'
        · obtain ⟨b, hb, hbk, hbs⟩ := insertHit_has_key acc x
          exact le_trans hbs (c3 b hb y hy (hbk.trans hk))
        · exact c4 x hx' hxn y hy hk

/-- C5: `deduplicate_hits` leaves at most one hit per normalized-whitespace
content key (its output is pairwise key-distinct), and every retained hit
is a non-noise input hit whose score is maximal among the non-noise input
hits sharing its key. -/
theorem c5_deduplicate_hits_unique_max (hits : List SearchHit) :
    (deduplicate_hits hits).Pairwise
      (fun a b => normWsKey a.content ≠ normWsKey b.content)
    ∧ ∀ y ∈ deduplicate_hits hits,
        y ∈ hits ∧ is_tool_invocation_noise y.content = false
        ∧ ∀ x ∈ hits, is_tool_invocation_noise x.content = false →
            normWsKey x.content = normWsKey y.content → x.score ≤ y.score := by
  obtain ⟨c1, c2, c3, c4⟩ := dedupFold_spec hits [] List.Pairwise.nil
  refine ⟨c1, fun y hy => ?_⟩
  rcases c2 y hy with h1 | ⟨h2, h3⟩
  · cases h1
  · exact ⟨h2, h3, fun x hx hxn hk => c4 x hx hxn y hy hk⟩

/-- C5 witness: the theorem applied to a two-hit list sharing one key. -/
theorem c5_deduplicate_hits_unique_max_witness :
    mkHit " dup  " 2 ∈ deduplicate_hits [mkHit "dup" 1, mkHit " dup  " 2]
    ∧ (mkHit "dup" 1).score ≤ (mkHit " dup  " 2).score :=
  ⟨by decide,
   ((c5_deduplicate_hits_unique_max [mkHit "dup" 1, mkHit " dup  " 2]).2
      (mkHit " dup  " 2) (by decide)).2.2 (mkHit "dup" 1) (by decide) (by decide) (by decide)⟩

/-! Helper lemmas for pagination monotonicity of `SearchClient.search`. -/

theorem dedupFold_append (l1 l2 acc : List SearchHit) :
    dedupFold (l1 ++ l2) acc = dedupFold l2 (dedupFold l1 acc) := by
  induction l1 generalizing acc with
  | nil => rfl
  | cons h t ih =>
    by_cases hn : is_tool_invocation_noise h.content <;> simp [dedupFold, hn, ih]

theorem insertHit_no_replace {acc : List SearchHit} {h : SearchHit}
    (hd : ∀ a ∈ acc, ¬ a.score < h.score) :
    ∃ t, insertHit acc h = acc ++ t ∧ ∀ y ∈ t, y = h := by
  induction acc with
  | nil => exact ⟨[h], rfl, by simp⟩
  | cons e es ih =>
    simp only [insertHit]
    split
    · split
      · rename_i hs
        exact absurd hs (hd e (List.mem_cons_self _ _))
      · exact ⟨[], by simp, by simp⟩
    · obtain ⟨t, ht, hy⟩ := ih (fun a ha => hd a (List.mem_cons_of_mem _ ha))
      exact ⟨t, by simp [ht], hy⟩

theorem dedupFold_extends :
    ∀ (input acc : List SearchHit),
      (∀ a ∈ acc, ∀ x ∈ input, x.score ≤ a.score) →
      input.Pairwise (fun a b => b.score ≤ a.score) →
      ∃ t, dedupFold input acc = acc ++ t := by
  intro input
  induction input with
  | nil => exact fun acc _ _ => ⟨[], by simp [dedupFold]⟩
  | cons h rest ih =>
    intro acc hd hs
    by_cases hn : is_tool_invocation_noise h.content
    · obtain ⟨t, ht⟩ := ih acc (fun a ha x hx => hd a ha x (List.mem_cons_of_mem _ hx))
        (List.pairwise_cons.mp hs).2
      exact ⟨t, by simp [dedupFold, hn, ht]⟩
    · obtain ⟨t0, ht0, hy0⟩ := insertHit_no_replace
        (fun a ha => not_lt.mpr (hd a ha h (List.mem_cons_self _ _)))
      have hd' : ∀ a ∈ acc ++ t0, ∀ x ∈ rest, x.score ≤ a.score := by
        intro a ha x hx
        rcases List.mem_append.mp ha with h1 | h2
        · exact hd a h1 x (List.mem_cons_of_mem _ hx)
        · rw [hy0 a h2]
          exact (List.pairwise_cons.mp hs).1 x hx
      obtain ⟨t1, ht1⟩ := ih (acc ++ t0) hd' (List.pairwise_cons.mp hs).2
      refine ⟨t0 ++ t1, ?_⟩
      rw [show dedupFold (h :: rest) acc = dedupFold rest (insertHit acc h) from by
        simp [dedupFold, hn]]
      rw [ht0, ht1, List.append_assoc]

theorem take_pre_of_le {α : Type} (A : List α) {n n' : Nat} (h : n ≤ n') :
    A.take n <+: A.take n' := by
  have h1 : (A.take n').take n = A.take n := by
    rw [List.take_take, inf_eq_left.mpr h]
  exact ⟨(A.take n').drop n, by rw [← h1, List.take_append_drop]⟩

theorem take_append_pre {α : Type} (A t : List α) (n : Nat) :
    A.take n <+: (A ++ t).take n := by
  rw [List.take_append_eq_append_take]
  exact ⟨t.take (n - A.length), rfl⟩

theorem dedup_take_pre {L : List SearchHit}
    (hs : L.Pairwise (fun a b => b.score ≤ a.score)) {k k' n n' : Nat}
    (hk : k ≤ k') (hn : n ≤ n') :
    (deduplicate_hits (L.take k)).take n <+: (deduplicate_hits (L.take k')).take n' := by
  have hsplit : L.take k' = L.take k ++ (L.take k').drop k := by
    conv_lhs => rw [← List.take_append_drop k (L.take k')]
    rw [List.take_take, inf_eq_left.mpr hk]
  have hsorted' : (L.take k').Pairwise (fun a b => b.score ≤ a.score) :=
    List.Pairwise.sublist (List.take_sublist _ _) hs
  obtain ⟨hp1, hp2, hcross⟩ := List.pairwise_append.mp (hsplit ▸ hsorted')
  have hmem : ∀ y ∈ deduplicate_hits (L.take k), y ∈ L.take k := by
    intro y hy
    rcases (dedupFold_spec (L.take k) [] List.Pairwise.nil).2.1 y hy with h1 | ⟨h2, _⟩
    · cases h1
    · exact h2
  obtain ⟨t, ht⟩ := dedupFold_extends ((L.take k').drop k) (deduplicate_hits (L.take k))
    (fun a ha x hx => hcross a (hmem a ha) x hx) hp2
  have hext : deduplicate_hits (L.take k') = deduplicate_hits (L.take k) ++ t := by
    conv_lhs => rw [hsplit]
    show dedupFold (L.take k ++ (L.take k').drop k) [] = _
    rw [dedupFold_append]
    exact ht
  rw [hext]
  exact (take_pre_of_le _ hn).trans (take_append_pre _ _ _)

/-- C6 counterexample: over the relational backend's ascending bm25
ordering, deduplication can replace an already-emitted hit in place once
the larger overfetch window reveals a higher-scored duplicate, so the
`limit = 1` result is not a prefix of the `limit = 2` result on
`ascStore`. -/
theorem c6_counterexample_not_monotone :
    ¬ (ascClient.search 1 0 <+: ascClient.search 2 0) := by
  have h1 : ascClient.search 1 0 = [mkHit "k" (-20)] := by decide
  have h2 : ascClient.search 2 0 = [mkHit "k " (-10), mkHit "b " (-14)] := by decide
  rw [h1, h2]
  rintro ⟨t, hpre⟩
  simp only [List.cons_append] at hpre
  have := List.head_eq_of_cons_eq hpre
  simp [mkHit] at this

/-- C6 (amended): when each present backend's ranked sequence is sorted by
non-increasing score (best hit first, as the inverted index delivers;
the relational backend's `ORDER BY bm25` ascending violates this), the
hits of `search` with `limit = N, offset = 0` are a prefix of those with
`limit = N + M, offset = 0`. -/
theorem c6_search_limit_monotone (c : SearchClient) (N M : Nat)
    (hsq : ∀ L, c.sqlite = some L → L.Pairwise (fun a b => b.score ≤ a.score))
    (hta : ∀ L, c.tantivy = some L → L.Pairwise (fun a b => b.score ≤ a.score)) :
    c.search N 0 <+: c.search (N + M) 0 := by
  rcases c with ⟨sq, ta⟩
  cases sq with
  | none =>
    cases ta with
    | none => exact ⟨[], rfl⟩
    | some t =>
      have hts := hta t rfl
      show (deduplicate_hits ((t.drop 0).take (N * 3))).take N
        <+: (deduplicate_hits ((t.drop 0).take ((N + M) * 3))).take (N + M)
      rw [List.drop_zero]
      exact dedup_take_pre hts (by omega) (by omega)
  | some store =>
    have hss := hsq store rfl
    by_cases hst : store = []
    · subst hst
      cases ta with
      | none =>
        show (if h : _ then _ else _) <+: _
        simp [SearchClient.search, backendFetch, searchTantivyArm]
      | some t =>
        have hts := hta t rfl
        simp only [SearchClient.search, backendFetch, List.drop_zero, List.take_nil,
          List.isEmpty_nil, if_true, searchTantivyArm]
        exact dedup_take_pre hts (by omega) (by omega)
    · by_cases hN : N = 0
      · subst hN
        have hlhs : SearchClient.search ⟨some store, ta⟩ 0 0 = [] := by
          cases ta <;>
            simp [SearchClient.search, backendFetch, searchTantivyArm, deduplicate_hits, dedupFold]
        rw [hlhs]
        exact ⟨_, rfl⟩
      · have h1 : store.take (N * 3) ≠ [] := by
          intro h
          rcases List.take_eq_nil_iff.mp h with h | h
          · omega
          · exact hst h
        have h2 : store.take ((N + M) * 3) ≠ [] := by
          intro h
          rcases List.take_eq_nil_iff.mp h with h | h
          · omega
          · exact hst h
        have he1 : (store.take (N * 3)).isEmpty = false :=
          Bool.eq_false_iff.mpr (fun hh => h1 (List.isEmpty_iff.mp hh))
        have he2 : (store.take ((N + M) * 3)).isEmpty = false :=
          Bool.eq_false_iff.mpr (fun hh => h2 (List.isEmpty_iff.mp hh))
        simp only [SearchClient.search, backendFetch, List.drop_zero, he1, he2,
          Bool.false_eq_true, if_false]
        exact dedup_take_pre hss (by omega) (by omega)

/-- C6 witness: the amended theorem applied to a client whose backend list
is sorted with non-increasing scores. -/
theorem c6_search_limit_monotone_witness :
    descClient.search 1 0 <+: descClient.search 2 0 :=
  c6_search_limit_monotone descClient 1 1
    (fun L hL => by
      have h : descStore = L := Option.some.inj hL
      subst h
      simp [descStore, mkHit, List.pairwise_cons])
    (fun L hL => Option.noConfusion hL)

/-! Helper lemmas for the downloader run. -/

theorem doCheck_flag {env : DlEnv} {st : DlState}
    (hc : ∀ k, env.cancelFiredBefore k = false) (hf : st.flag = false) :
    doCheck env st =
      (false,
        { st with
            flag := false
            tick := st.tick + 1
            events := st.events ++ [.checkCancel false] }) := by
  simp [doCheck, hf, hc]

theorem append3_ext {α : Type} (base t1 t2 t3 : List α) :
    ∃ t, ((base ++ t1) ++ t2) ++ t3 = base ++ t :=
  ⟨t1 ++ t2 ++ t3, by simp [List.append_assoc]⟩

theorem append5_ext {α : Type} (base t1 t2 t3 t4 t5 : List α) :
    ∃ t, ((((base ++ t1) ++ t2) ++ t3) ++ t4) ++ t5 = base ++ t :=
  ⟨t1 ++ t2 ++ t3 ++ t4 ++ t5, by simp [List.append_assoc]⟩

theorem retryGoInv {env : DlEnv}
    (hc : ∀ k, env.cancelFiredBefore k = false)
    (hnc : ∀ i a, env.attemptResult i a ≠ some .cancelled) :
    ∀ (attempts : List Nat) (f : Nat) (b : Int) (lastErr : Option DlErr)
      (st : DlState), st.flag = false → lastErr ≠ some DlErr.cancelled →
      (retryGo env f b attempts lastErr st).1 ≠ .error .cancelled
      ∧ (retryGo env f b attempts lastErr st).2.flag = false
      ∧ ∃ t, (retryGo env f b attempts lastErr st).2.events = st.events ++ t := by
  intro attempts
  induction attempts with
  | nil =>
    intro f b lastErr st hf hl
    cases lastErr with
    | none => exact ⟨by simp [retryGo], by simp [retryGo, hf], ⟨[], by simp [retryGo]⟩⟩
    | some e =>
      refine ⟨?_, by simp [retryGo, hf], ⟨[], by simp [retryGo]⟩⟩
      simp only [retryGo]
      intro h
      simp only [Except.error.injEq] at h
      exact hl (by rw [h])
  | cons a rest ih =>
    intro f b lastErr st hf hl
    have step : ∀ (e : DlErr), env.attemptResult f a = some e →
        ∀ (s : DlState), s.flag = false → (∃ u, s.events = st.events ++ u) →
        (retryGo env f b rest (some e) s).1 ≠ .error .cancelled
        ∧ (retryGo env f b rest (some e) s).2.flag = false
        ∧ ∃ t, (retryGo env f b rest (some e) s).2.events = st.events ++ t := by
      intro e hres s hs hu
      obtain ⟨u, hu⟩ := hu
      obtain ⟨i1, i2, t, ht⟩ := ih f b (some e) s hs (hres ▸ hnc f a)
      exact ⟨i1, i2, u ++ t, by rw [ht, hu, List.append_assoc]⟩
    by_cases ha : 0 < a
    · simp only [retryGo, doCheck_flag hc hf, Bool.false_eq_true, if_false, if_pos ha]
      rw [doCheck_flag hc rfl]
      simp only [Bool.false_eq_true, if_false]
      cases hres : env.attemptResult f a with
      | none =>
        refine ⟨by simp [hres], by simp [hres], ?_⟩
        simp only [hres]
        exact append5_ext _ _ _ _ _ _
      | some e =>
        simp only [hres]
        refine step e hres _ ?_ ?_
        · rfl
        · exact append5_ext _ _ _ _ _ _
    · simp only [retryGo, doCheck_flag hc hf, Bool.false_eq_true, if_false, if_neg ha]
      rw [doCheck_flag hc rfl]
      simp only [Bool.false_eq_true, if_false]
      cases hres : env.attemptResult f a with
      | none =>
        refine ⟨by simp [hres], by simp [hres], ?_⟩
        simp only [hres]
        exact append3_ext _ _ _ _
      | some e =>
        simp only [hres]
        refine step e hres _ ?_ ?_
        · rfl
        · exact append3_ext _ _ _ _

theorem fileStepInv {env : DlEnv}
    (hc : ∀ k, env.cancelFiredBefore k = false)
    (hnc : ∀ i a, env.attemptResult i a ≠ some .cancelled)
    (mR fIdx : Nat) (file : ModelFile) (st : DlState) (hf : st.flag = false) :
    (fileStep env mR fIdx file st).1 ≠ .error .cancelled
    ∧ (fileStep env mR fIdx file st).2.flag = false
    ∧ ∃ t, (fileStep env mR fIdx file st).2.events = st.events ++ t := by
  simp only [fileStep, doCheck_flag hc hf, Bool.false_eq_true, if_false, retryLoop]
  generalize hR : ({ st with
      flag := false
      tick := st.tick + 1
      events := st.events ++ [DlEvent.checkCancel false] } : DlState) = R
  have hRf : R.flag = false := by rw [← hR]
  have hRe : R.events = st.events ++ [DlEvent.checkCancel false] := by rw [← hR]
  obtain ⟨r1, r2, tr, htr⟩ := retryGoInv hc hnc (List.range mR) fIdx st.bytes none R hRf
    (fun h => Option.noConfusion h)
  split
  · rename_i e st2 heq
    rw [heq] at r1 r2 htr
    simp only at r1 r2 htr
    refine ⟨r1, r2, ⟨[DlEvent.checkCancel false] ++ tr, ?_⟩⟩
    rw [htr, hRe, List.append_assoc]
  · rename_i u st2 heq
    rw [heq] at r2 htr
    simp only at r2 htr
    rw [doCheck_flag hc r2]
    simp only [Bool.false_eq_true, if_false]
    split
    · refine ⟨by simp, rfl, ⟨[DlEvent.checkCancel false] ++ tr ++ [DlEvent.checkCancel false], ?_⟩⟩
      show st2.events ++ [DlEvent.checkCancel false] = _
      rw [htr, hRe]
      simp [List.append_assoc]
    · refine ⟨by simp, rfl, ⟨[DlEvent.checkCancel false] ++ tr ++ [DlEvent.checkCancel false], ?_⟩⟩
      show st2.events ++ [DlEvent.checkCancel false] = _
      rw [htr, hRe]
      simp [List.append_assoc]

theorem filesGoInv {env : DlEnv}
    (hc : ∀ k, env.cancelFiredBefore k = false)
    (hnc : ∀ i a, env.attemptResult i a ≠ some .cancelled) (mR : Nat) :
    ∀ (pairs : List (Nat × ModelFile)) (st : DlState), st.flag = false →
      (filesGo env mR pairs st).1 ≠ .error .cancelled
      ∧ (filesGo env mR pairs st).2.flag = false
      ∧ ∃ t, (filesGo env mR pairs st).2.events = st.events ++ t := by
  intro pairs
  induction pairs with
  | nil =>
    intro st hf
    exact ⟨by simp [filesGo], by simp [filesGo, hf], ⟨[], by simp [filesGo]⟩⟩
  | cons p rest ih =>
    rcases p with ⟨i, f⟩
    intro st hf
    obtain ⟨f1, f2, tf, htf⟩ := fileStepInv hc hnc mR i f st hf
    simp only [filesGo]
    split
    · rename_i u st2 heq
      rw [heq] at f2 htf
      simp only at f2 htf
      obtain ⟨g1, g2, tg, htg⟩ := ih st2 f2
      exact ⟨g1, g2, tf ++ tg, by rw [htg, htf, List.append_assoc]⟩
    · rename_i e st2 heq
      rw [heq] at f1 f2 htf
      simp only at f1 f2 htf
      exact ⟨f1, f2, tf, htf⟩

/-- C9 counterexample: with every attempt failing retryably and no
cancellation, a file is attempted exactly three times in total — the
initial try plus two retries with sleeps of 5 and 10 seconds.  The run
never performs a third retry (which would add a 20-second sleep and a
fourth attempt), so "retries up to three times" does not hold of the
exhausted-failure run. -/
theorem c9_counterexample_two_retries :
    ((ModelDownloader.new.download oneFileManifest allFailEnv).2.events.filter
        (fun e => match e with | .sleep _ => true | _ => false)) = [.sleep 5, .sleep 10]
    ∧ ((ModelDownloader.new.download oneFileManifest allFailEnv).2.events.filter
        (fun e => match e with | .attemptFile _ _ => true | _ => false)).length = 3
    ∧ (ModelDownloader.new.download oneFileManifest allFailEnv).1
        = .error (.network "recv failure")
    ∧ ¬ (((ModelDownloader.new.download oneFileManifest allFailEnv).2.events.filter
        (fun e => match e with | .sleep _ => true | _ => false)).length = 3) :=
  ⟨by decide, by decide, rfl, by decide⟩

/-- C9 (amended): on persistent retryable network failure the retry loop
performs exactly three attempts (the initial try plus two retries);
before retry number `attempt ∈ \x7b1, 2\x7d` it stores the pre-file baseline
`b` back into the shared byte counter and sleeps `5 * 2 ^ (attempt - 1)`
seconds; the loop then gives up with the last network error. -/
theorem c9_retry_schedule (env : DlEnv) (f : Nat) (b : Int) (st : DlState)
    (e0 e1 e2 : String)
    (hc : ∀ k, env.cancelFiredBefore k = false)
    (hflag : st.flag = false)
    (h0 : env.attemptResult f 0 = some (.network e0))
    (h1 : env.attemptResult f 1 = some (.network e1))
    (h2 : env.attemptResult f 2 = some (.network e2)) :
    retryLoop env 3 f b st =
      (.error (.network e2),
        { flag := false
          bytes := b + env.attemptDelta f 2
          tick := st.tick + 6
          events := st.events ++
            [.checkCancel false, .checkCancel false, .attemptFile f 0,
             .checkCancel false, .storeCounter b, .sleep 5,
             .checkCancel false, .attemptFile f 1,
             .checkCancel false, .storeCounter b, .sleep 10,
             .checkCancel false, .attemptFile f 2] }) := by
  obtain ⟨fl, bv, tk, ev⟩ := st
  simp only at hflag
  subst hflag
  have hr : List.range 3 = [0, 1, 2] := rfl
  simp [retryLoop, hr, retryGo, doCheck, hc, h0, h1, h2, List.append_assoc]

/-- C9 witness: the amended schedule realised on the always-failing
environment, from baseline 42. -/
theorem c9_retry_schedule_witness :
    retryLoop allFailEnv 3 0 42 { flag := false, bytes := 0, tick := 0, events := [] } =
      (.error (.network "recv failure"),
        { flag := false
          bytes := 49
          tick := 6
          events := [.checkCancel false, .checkCancel false, .attemptFile 0 0,
                     .checkCancel false, .storeCounter 42, .sleep 5,
                     .checkCancel false, .attemptFile 0 1,
                     .checkCancel false, .storeCounter 42, .sleep 10,
                     .checkCancel false, .attemptFile 0 2] }) :=
  c9_retry_schedule allFailEnv 0 42 { flag := false, bytes := 0, tick := 0, events := [] }
    "recv failure" "recv failure" "recv failure" (fun k => rfl) rfl rfl rfl rfl

/-- C10: `ModelDownloader::download` stores `false` into the shared
cancellation flag before anything else (the `storeFlag false` event heads
every trace), so whatever the flag held when `download` was entered —
including `true` from a `cancel()` issued beforehand — a run during which
no new cancellation request arrives never returns the `Cancelled`
error. -/
theorem c10_download_resets_cancel_flag (d : ModelDownloader) (m : ModelManifest)
    (env : DlEnv)
    (hc : ∀ k, env.cancelFiredBefore k = false)
    (hnc : ∀ i a, env.attemptResult i a ≠ some DlErr.cancelled) :
    (d.download m env).1 ≠ .error .cancelled
    ∧ (d.download m env).2.events.head? = some (.storeFlag false) := by
  obtain ⟨h1, h2, t, ht⟩ := filesGoInv hc hnc d.maxRetries m.files.enum
    { flag := false, bytes := 0, tick := 0, events := [DlEvent.storeFlag false] } rfl
  refine ⟨h1, ?_⟩
  show (filesGo env d.maxRetries m.files.enum
    { flag := false, bytes := 0, tick := 0, events := [DlEvent.storeFlag false] }).2.events.head? = _
  rw [ht]
  rfl

/-- C10 witness: a downloader whose flag is still `true` from an earlier
`cancel()` call; the download of a one-file manifest neither observes the
stale flag nor returns `Cancelled`. -/
theorem c10_download_resets_cancel_flag_witness :
    (ModelDownloader.download { cancelled := true, maxRetries := 3 } oneFileManifest allOkEnv).1
        ≠ .error .cancelled
    ∧ (ModelDownloader.download { cancelled := true, maxRetries := 3 }
        oneFileManifest allOkEnv).2.events.head? = some (.storeFlag false) :=
  c10_download_resets_cancel_flag { cancelled := true, maxRetries := 3 } oneFileManifest allOkEnv
    (fun k => rfl) (fun i a h => Option.noConfusion h)
